import Mathlib

/-!
Verification of the AQL validation and formatting utilities of
jira-insights-mcp (src/utils/enhanced-aql-utils.ts).

The TypeScript code works on JavaScript strings with literal regular
expressions.  The embedding models strings as Lean String / List Char and
models each concrete regular expression of the source by an executable
scanner that implements the exact leftmost, greedy, backtracking semantics
of the JavaScript regex engine for that pattern.  The character classes
are the ASCII interpretations used by the source: the class for whitespace
contains space, tab, newline, carriage return, vertical tab and form feed,
and the word class is letters, digits and underscore.
-/

/-- Whitespace, as matched by the regex class for spaces and removed by the
trim method of JavaScript strings (ASCII subset). -/
def isWs (c : Char) : Bool :=
  c = ' ' || c = '\t' || c = '\n' || c = '\r' || c = '\x0b' || c = '\x0c'

/-- Word characters, the regex word class: letters, digits, underscore. -/
def isWordChar (c : Char) : Bool :=
  ('a' ≤ c && c ≤ 'z') || ('A' ≤ c && c ≤ 'Z') || ('0' ≤ c && c ≤ '9') || c = '_'

/-- ASCII lower casing, as toLowerCase acts on ASCII letters and as the
case-insensitive regex flag compares them. -/
def lowerChar (c : Char) : Char :=
  if 'A' ≤ c && c ≤ 'Z' then Char.ofNat (c.toNat + 32) else c

/-- The single-quote character (written by code point to keep the source
free of quote-escape literals). -/
def squote : Char := Char.ofNat 39

/-- Trim of JavaScript strings on character lists: drop leading and
trailing whitespace. -/
def trimChars (l : List Char) : List Char :=
  ((l.dropWhile isWs).reverse.dropWhile isWs).reverse

/-- The trim method of JavaScript strings. -/
def jsTrim (s : String) : String := ⟨trimChars s.data⟩

/-- Is the first list a prefix of the second (by character equality)? -/
def isPrefixOfChars : List Char → List Char → Bool
  | [], _ => true
  | _ :: _, [] => false
  | a :: as, b :: bs => a = b && isPrefixOfChars as bs

/-- Substring containment, the includes method of JavaScript strings. -/
def containsSub (sub : List Char) : List Char → Bool
  | [] => sub.isEmpty
  | c :: t => isPrefixOfChars sub (c :: t) || containsSub sub t

/-- Number of occurrences of a character, as counting the matches of a
global single-character regex. -/
def countChar (c : Char) (l : List Char) : Nat :=
  (l.filter (fun x => x = c)).length

/-- Match, at the start of the input, a regex of shape
(one or more spaces)(keyword)(one or more spaces), case-insensitively when
ci is set.  Both space quantifiers are greedy; since the keyword starts
with a letter the leading run of whitespace must be consumed entirely, and
the trailing run is consumed entirely because nothing follows in the
pattern.  Returns the remainder after the match. -/
def kwMatchAt (ci : Bool) (kw : List Char) (s : List Char) : Option (List Char) :=
  if (s.takeWhile isWs).isEmpty then none
  else
    let s1 := s.dropWhile isWs
    let pre := s1.take kw.length
    if pre.length = kw.length ∧ (if ci then pre.map lowerChar else pre) = kw then
      let s2 := s1.drop kw.length
      if (s2.takeWhile isWs).isEmpty then none else some (s2.dropWhile isWs)
    else none

/-- Test of a spaced-keyword regex anywhere in the input (the test method
of a regex on a string). -/
def testKwSpaced (ci : Bool) (kw : List Char) : List Char → Bool
  | [] => false
  | c :: t => (kwMatchAt ci kw (c :: t)).isSome || testKwSpaced ci kw t

/-- Global replacement of a spaced-keyword regex: scan left to right, on a
match emit the replacement and continue after the matched text (the
replacement is never rescanned), otherwise copy one character.  The fuel
argument bounds the recursion; a match always consumes at least one
character so the input length is enough fuel. -/
def replaceKwGo (ci : Bool) (kw rep : List Char) : Nat → List Char → List Char
  | 0, s => s
  | fuel + 1, s =>
    match kwMatchAt ci kw s with
    | some rest => rep ++ replaceKwGo ci kw rep fuel rest
    | none =>
      match s with
      | [] => []
      | c :: t => c :: replaceKwGo ci kw rep fuel t

/-- Global case-insensitive replacement of a spaced keyword. -/
def replaceKw (kw rep : List Char) (s : List Char) : List Char :=
  replaceKwGo true kw rep s.length s

/-- Match, at the start of the input, the pattern
(one or more spaces)(keyword)(any spaces)(open parenthesis). -/
def inParenAt (ci : Bool) (kw : List Char) (s : List Char) : Bool :=
  if (s.takeWhile isWs).isEmpty then false
  else
    let s1 := s.dropWhile isWs
    let pre := s1.take kw.length
    if pre.length = kw.length ∧ (if ci then pre.map lowerChar else pre) = kw then
      match (s1.drop kw.length).dropWhile isWs with
      | '(' :: _ => true
      | _ => false
    else false

/-- Test of the keyword-then-parenthesis pattern anywhere in the input. -/
def testInParen (ci : Bool) (kw : List Char) : List Char → Bool
  | [] => false
  | c :: t => inParenAt ci kw (c :: t) || testInParen ci kw t

/-- Test of the pattern (word char, one or more)(any spaces)(open
parenthesis) anywhere in the input.  A match exists exactly when some word
character is followed, after a run of whitespace, by an open
parenthesis. -/
def testWordFun : List Char → Bool
  | [] => false
  | c :: t =>
    (isWordChar c &&
      (match t.dropWhile isWs with
       | '(' :: _ => true
       | _ => false)) || testWordFun t

/-- Characters of the operator class in the invalid-operator regex. -/
def isOpChar (c : Char) : Bool := c = '=' || c = '<' || c = '>' || c = '!'

/-- Try to read one of the literal operators ===, !== or <> at the start
of the input (ordered alternation; the alternatives start with distinct
characters so at most one applies). -/
def opAfter (s1 : List Char) : Option (List Char) :=
  if isPrefixOfChars "===".data s1 then some (s1.drop 3)
  else if isPrefixOfChars "!==".data s1 then some (s1.drop 3)
  else if isPrefixOfChars "<>".data s1 then some (s1.drop 2)
  else none

/-- Test of the invalid-operator regex: a character outside the operator
class, any spaces, one of === !== <>, any spaces, a character outside the
operator class.  The space quantifier before the operator must consume the
whole whitespace run (operator characters are not whitespace).  After the
operator, a whitespace character itself lies outside the operator class,
so the trailing part matches exactly when the next character exists and is
outside the operator class (the trailing space quantifier backtracks to
zero when needed). -/
def testInvalidOp : List Char → Bool
  | [] => false
  | c :: t =>
    (!isOpChar c &&
      (match opAfter (t.dropWhile isWs) with
       | some r =>
         (match r with
          | d :: _ => !isOpChar d
          | [] => false)
       | none => false)) || testInvalidOp t

/-- Does the lookahead pattern (any spaces)(double or single quote) match
at the input?  The quote must follow the whole whitespace run, since quote
characters are not whitespace. -/
def wsQuoteAhead (r : List Char) : Bool :=
  match r.dropWhile isWs with
  | c :: _ => c = '"' || c = squote
  | [] => false

/-- Test, positioned right after an equals sign, of the group
(word run)(spaces)(word run) followed by the negative lookahead rejecting
(any spaces)(quote).  Greedy matching forces every run to be consumed
entirely; the engine may then backtrack inside the second word run, so
with a second word run of length at least two a shortened match always
satisfies the lookahead, while a length-one second word requires the
lookahead to fail on the remainder. -/
def vwsAt (s : List Char) : Bool :=
  let s1 := s.dropWhile isWs
  let w1 := s1.takeWhile isWordChar
  if w1.isEmpty then false
  else
    let r := s1.dropWhile isWordChar
    if (r.takeWhile isWs).isEmpty then false
    else
      let r1 := (r.dropWhile isWs)
      let w2 := r1.takeWhile isWordChar
      if w2.isEmpty then false
      else 2 ≤ w2.length || !wsQuoteAhead (r1.dropWhile isWordChar)

/-- Test of the unquoted-spaced-value regex of the quote validator
anywhere in the input: an equals sign followed by a match of vwsAt. -/
def testValueWithSpace : List Char → Bool
  | [] => false
  | c :: t => (c = '=' && vwsAt t) || testValueWithSpace t

/-- One repetition (spaces, one or more)(word chars, one or more) of the
repeated group in the auto-quoting regex: returns the whitespace run, the
word run and the remainder. -/
def takeRep (r : List Char) : Option (List Char × List Char × List Char) :=
  let ws := r.takeWhile isWs
  if ws.isEmpty then none
  else
    let r1 := r.dropWhile isWs
    let w := r1.takeWhile isWordChar
    if w.isEmpty then none else some (ws, w, r1.dropWhile isWordChar)

/-- Match one or more repetitions of (spaces)(word run) followed by the
negative lookahead rejecting (any spaces)(quote), with the backtracking of
the JavaScript engine: prefer more repetitions; when the lookahead fails
after the last repetition, first shorten the last word run by one
character (the lookahead then succeeds on the remaining word character),
else drop the last repetition (the lookahead then succeeds on its leading
whitespace and word), else fail.  Returns the matched text and the
remainder. -/
def qRepsGo : Nat → List Char → Option (List Char × List Char)
  | 0, _ => none
  | fuel + 1, r =>
    match takeRep r with
    | none => none
    | some (ws, w, r1) =>
      match qRepsGo fuel r1 with
      | some (g, rest) => some (ws ++ w ++ g, rest)
      | none =>
        if !wsQuoteAhead r1 then some (ws ++ w, r1)
        else if 2 ≤ w.length then
          some (ws ++ w.take (w.length - 1), w.drop (w.length - 1) ++ r1)
        else none

/-- Match, positioned right after an equals sign, the rest of the
auto-quoting regex: any spaces, then the captured group of a word run and
at least one spaced word run, then the negative lookahead.  Returns the
captured group and the remainder. -/
def qMatchAfterEq (fuel : Nat) (s : List Char) : Option (List Char × List Char) :=
  let s1 := s.dropWhile isWs
  let w1 := s1.takeWhile isWordChar
  if w1.isEmpty then none
  else
    match qRepsGo fuel (s1.dropWhile isWordChar) with
    | some (g, rest) => some (w1 ++ g, rest)
    | none => none

/-- Global replacement for the auto-quoting regex: each match of
(equals)(spaces)(group) is replaced by an equals sign, a space and the
group in double quotes; scanning continues after the matched text. -/
def quoteValuesGo : Nat → List Char → List Char
  | 0, s => s
  | fuel + 1, s =>
    match s with
    | [] => []
    | c :: t =>
      if c = '=' then
        match qMatchAfterEq (fuel + 1) t with
        | some (g, rest) => '=' :: ' ' :: '"' :: (g ++ '"' :: quoteValuesGo fuel rest)
        | none => c :: quoteValuesGo fuel t
      else c :: quoteValuesGo fuel t

/-- Add quotes around unquoted values with spaces (last step of the fixing
pipeline). -/
def quoteValues (s : List Char) : List Char := quoteValuesGo s.length s

/-- Global replacement of the word-bounded, case-insensitive literal
objecttype by ObjectType.  The flag tracks whether the previous character
is a word character, deciding the left word boundary; the right boundary
is checked on the remainder. -/
def otReplaceGo : Nat → Bool → List Char → List Char
  | 0, _, s => s
  | fuel + 1, prevWord, s =>
    let pre := s.take 10
    let rightBoundary : Bool :=
      match s.drop 10 with
      | c :: _ => !isWordChar c
      | [] => true
    if prevWord = false ∧ pre.length = 10 ∧ pre.map lowerChar = "objecttype".data ∧
        rightBoundary = true then
      "ObjectType".data ++ otReplaceGo fuel true (s.drop 10)
    else
      match s with
      | [] => []
      | c :: t => c :: otReplaceGo fuel (isWordChar c) t

/-- Fix the casing of the objecttype keyword. -/
def otReplace (s : List Char) : List Char := otReplaceGo s.length false s

/-- Put a space on both sides of every comparison character (the global
replacement of the class of equals, less-than and greater-than by the
matched character with surrounding spaces). -/
def expandOps (s : List Char) : List Char :=
  s.foldr (fun c acc =>
    if c = '=' ∨ c = '<' ∨ c = '>' then ' ' :: c :: ' ' :: acc else c :: acc) []

/-- Collapse every whitespace run to a single space (the global
replacement of one-or-more whitespace by one space). -/
def collapseWsGo : Nat → List Char → List Char
  | 0, s => s
  | fuel + 1, s =>
    match s with
    | [] => []
    | c :: t =>
      if isWs c then ' ' :: collapseWsGo fuel (t.dropWhile isWs)
      else c :: collapseWsGo fuel t

/-- Collapse whitespace runs to single spaces. -/
def collapseWs (s : List Char) : List Char := collapseWsGo s.length s

/-- Match, at the start of the input, the schema-extraction regex: the
case-insensitive literal objectType, any spaces, an equals sign, any
spaces, a quote, the captured run of one or more non-quote characters, a
quote.  Returns the captured value and the remainder. -/
def otValueAt (s : List Char) : Option (List Char × List Char) :=
  let pre := s.take 10
  if pre.length = 10 ∧ pre.map lowerChar = "objecttype".data then
    match (s.drop 10).dropWhile isWs with
    | '=' :: r1 =>
      (match r1.dropWhile isWs with
       | q :: r2 =>
         if q = '"' ∨ q = squote then
           let v := r2.takeWhile (fun c => !(c = '"' || c = squote))
           if v.isEmpty then none
           else
             match r2.drop v.length with
             | q2 :: rest =>
               if q2 = '"' ∨ q2 = squote then some (v, rest) else none
             | [] => none
         else none
       | [] => none)
    | _ => none
  else none

/-- All captured values of the global schema-extraction regex, scanning
left to right and continuing after each match; per match the source
recovers the captured group by replacing the whole matched text with the
group, which yields exactly the captured value. -/
def extractOtValuesGo : Nat → List Char → List String
  | 0, _ => []
  | fuel + 1, s =>
    match otValueAt s with
    | some (v, rest) => (⟨v⟩ : String) :: extractOtValuesGo fuel rest
    | none =>
      match s with
      | [] => []
      | _ :: t => extractOtValuesGo fuel t

/-- The object types named in the query, as extracted by the schema-aware
validator. -/
def extractObjectTypeValues (aql : String) : List String :=
  extractOtValuesGo aql.data.length aql.data

/-- Inner loop of the Levenshtein matrix: bc is the current character of
the second string, the first list holds the remaining characters of the
first string, the second list walks the previous row, diag is the previous
row entry one step back and cur is the entry just written in the new
row.  On equal characters the new entry is the diagonal entry, otherwise
one more than the minimum of substitution, insertion and deletion. -/
def levGo (bc : Char) : List Char → List Nat → Nat → Nat → List Nat
  | [], _, _, _ => []
  | _ :: _, [], _, _ => []
  | ac :: as, pv :: pvs, diag, cur =>
    let v := if bc = ac then diag else Nat.min (Nat.min diag cur) pv + 1
    v :: levGo bc as pvs pv v

/-- Build the successive rows of the Levenshtein matrix over the
characters of the second string; each row i starts with the entry i. -/
def levRowsGo (a : List Char) : List Char → List Nat → Nat → List Nat
  | [], row, _ => row
  | bc :: bs, row, i =>
    levRowsGo a bs (i :: levGo bc a row.tail (row.headD 0) i) (i + 1)

/-- The Levenshtein distance of the source: full dynamic-programming
matrix with unit costs, first row 0..n, answer in the last cell. -/
def levenshteinDistance (a b : String) : Nat :=
  (levRowsGo a.data b.data (List.range (a.data.length + 1)) 1).getLastD 0

/-- ASCII lower casing of a string (toLowerCase). -/
def lowerStr (s : String) : String := ⟨s.data.map lowerChar⟩

/-- Candidates within the given Levenshtein distance of the target, both
sides lower-cased, kept in candidate order (the source loops over the
candidates and pushes the close ones). -/
def findSimilarStrings (target : String) (candidates : List String)
    (maxDistance : Nat) : List String :=
  candidates.foldl
    (fun similar candidate =>
      if levenshteinDistance (lowerStr target) (lowerStr candidate) ≤ maxDistance
      then similar ++ [candidate] else similar) []

/-- Schema context for validation. -/
structure SchemaContext where
  objectTypes : List String
  attributes : List (String × List String)
  referenceTypes : List String

/-- The unknown-object-type error message. -/
def unknownObjectTypeError (objectType : String) : String :=
  "Object type \"" ++ objectType ++ "\" does not exist in the schema"

/-- The did-you-mean suggestion listing the similar object types. -/
def didYouMeanSuggestion (similarTypes : List String) : String :=
  "Did you mean one of these: " ++ String.intercalate ", " similarTypes ++ "?"

/-- One step of the schema validation loop: an extracted object type not
present (by exact string equality) in the schema pushes an
unknown-object-type error and, when similar names exist, a did-you-mean
suggestion. -/
def schemaStep (objTypes : List String) (acc : List String × List String)
    (objectType : String) : List String × List String :=
  if objectType ∈ objTypes then acc
  else
    let similarTypes := findSimilarStrings objectType objTypes 3
    (acc.1 ++ [unknownObjectTypeError objectType],
     acc.2 ++ (if similarTypes.isEmpty then [] else [didYouMeanSuggestion similarTypes]))

/-- Schema-aware validation: loop over the extracted object types. -/
def validateAgainstSchema (aql : String) (schema : SchemaContext) :
    List String × List String :=
  (extractObjectTypeValues aql).foldl (schemaStep schema.objectTypes) ([], [])

/-- Does the query have a basic comparison structure: a comparison
character or spaced like, in or is keyword, a function call shape, or a
spaced having keyword? -/
def hasValidSyntaxStructure (aql : String) : Bool :=
  let hasComparisonOperator :=
    aql.data.any (fun c => c = '=' || c = '<' || c = '>') ||
    testKwSpaced true "like".data aql.data ||
    testKwSpaced true "in".data aql.data ||
    testKwSpaced true "is".data aql.data
  let hasFunction := testWordFun aql.data
  let hasHaving := testKwSpaced true "having".data aql.data
  hasComparisonOperator || hasFunction || hasHaving

/-- Operator validation: invalid comparison operators give an error; the
other checks only add suggestions. -/
def validateOperators (aql : String) : List String × List String :=
  let invalidOp := testInvalidOp aql.data
  ((if invalidOp then ["Invalid comparison operator detected"] else []),
   (if invalidOp then
      ["Use = for equality, != for inequality, < for less than, > for greater than"]
    else []) ++
   (if containsSub "==".data aql.data then
      ["Note: == is case-sensitive equality, = is case-insensitive"]
    else []) ++
   (if testKwSpaced true "like".data aql.data &&
       !testKwSpaced false "LIKE".data aql.data then
      ["LIKE operator should be uppercase: LIKE instead of like"]
    else []) ++
   (if testInParen true "in".data aql.data &&
       !testInParen false "IN".data aql.data then
      ["IN operator should be uppercase: IN instead of in"]
    else []))

/-- Quote validation: unbalanced double quotes, unbalanced single quotes,
unquoted values with spaces; mixing quote types only adds a suggestion. -/
def validateQuotes (aql : String) : List String × List String :=
  let dq := countChar '"' aql.data
  let sq := countChar squote aql.data
  ((if dq % 2 ≠ 0 then ["Unbalanced double quotes in query"] else []) ++
   (if sq % 2 ≠ 0 then ["Unbalanced single quotes in query"] else []) ++
   (if testValueWithSpace aql.data then
      ["Values with spaces must be enclosed in quotes"]
    else []),
   (if dq % 2 ≠ 0 then
      ["Ensure all opening double quotes have matching closing quotes"]
    else []) ++
   (if sq % 2 ≠ 0 then
      ["Ensure all opening single quotes have matching closing quotes"]
    else []) ++
   (if testValueWithSpace aql.data then
      ["Example: Name = \"John Doe\" (not Name = John Doe)"]
    else []) ++
   (if 0 < dq ∧ 0 < sq then
      ["Consider using only one type of quotes (preferably double quotes) for consistency"]
    else []))

/-- Is the keyword present in spaced lowercase-insensitive form but never
in spaced uppercase form? -/
def lowercaseKwBad (kw kwUpper : List Char) (s : List Char) : Bool :=
  testKwSpaced true kw s && !testKwSpaced false kwUpper s

/-- Logical operator validation: each of and, or, not present only in
non-uppercase spaced form pushes the same uppercase error with its own
suggestion; complex conditions without parentheses add a suggestion. -/
def validateLogicalOperators (aql : String) : List String × List String :=
  let andBad := lowercaseKwBad "and".data "AND".data aql.data
  let orBad := lowercaseKwBad "or".data "OR".data aql.data
  let notBad := lowercaseKwBad "not".data "NOT".data aql.data
  let parenSugg :=
    (containsSub " AND ".data aql.data || containsSub " OR ".data aql.data) &&
    containsSub " OR ".data aql.data && !aql.data.any (fun c => c = '(')
  ((if andBad then ["Logical operators should be uppercase"] else []) ++
   (if orBad then ["Logical operators should be uppercase"] else []) ++
   (if notBad then ["Logical operators should be uppercase"] else []),
   (if andBad then ["Use AND instead of and"] else []) ++
   (if orBad then ["Use OR instead of or"] else []) ++
   (if notBad then ["Use NOT instead of not"] else []) ++
   (if parenSugg then
      ["Consider using parentheses for complex conditions: ObjectType = \"Laptop\" AND (Name LIKE \"ThinkPad\" OR Name LIKE \"Lenovo\")"]
    else []))

/-- Parenthesis validation: unbalanced or empty parentheses. -/
def validateParentheses (aql : String) : List String × List String :=
  let openParenCount := countChar '(' aql.data
  let closeParenCount := countChar ')' aql.data
  ((if openParenCount ≠ closeParenCount then ["Unbalanced parentheses in query"] else []) ++
   (if containsSub "()".data aql.data then ["Empty parentheses detected"] else []),
   (if openParenCount ≠ closeParenCount then
      ["Ensure all opening parentheses have matching closing parentheses"]
    else []) ++
   (if containsSub "()".data aql.data then
      ["Remove empty parentheses or add content between them"]
    else []))

/-- The fixing pipeline of attemptQueryFix and of the auto-fix branch of
the formatter: uppercase the spaced logical and comparison keywords, fix
the objecttype casing, space out the comparison characters, collapse
whitespace, then quote unquoted spaced values. -/
def attemptQueryFix (aql : String) : Option String :=
  let fixedQuery : String :=
    ⟨quoteValues (collapseWs (expandOps (otReplace
      (replaceKw "in".data " IN ".data
        (replaceKw "like".data " LIKE ".data
          (replaceKw "not".data " NOT ".data
            (replaceKw "or".data " OR ".data
              (replaceKw "and".data " AND ".data aql.data))))))))⟩
  if fixedQuery = aql then none else some fixedQuery

/-- The result record of validateAqlQuery. -/
structure ValidationResult where
  isValid : Bool
  errors : List String
  suggestions : List String
  fixedQuery : Option String
deriving DecidableEq, Repr

/-- Errors pushed by the five context-free checks, in source order:
structure, operators, quotes, logical operators, parentheses. -/
def baseErrors (aql : String) : List String :=
  (if hasValidSyntaxStructure aql then []
   else ["Query missing valid comparison structure"]) ++
  (validateOperators aql).1 ++ (validateQuotes aql).1 ++
  (validateLogicalOperators aql).1 ++ (validateParentheses aql).1

/-- Suggestions pushed by the five context-free checks, in source order. -/
def baseSuggestions (aql : String) : List String :=
  (if hasValidSyntaxStructure aql then []
   else ["Basic query format: [attribute/keyword] [operator] [value]",
         "Example: ObjectType = \"Application\""]) ++
  (validateOperators aql).2 ++ (validateQuotes aql).2 ++
  (validateLogicalOperators aql).2 ++ (validateParentheses aql).2

/-- All accumulated errors: the context-free ones, then the schema ones
when a schema context is given. -/
def aqlErrors (aql : String) (schemaContext : Option SchemaContext) : List String :=
  baseErrors aql ++
    (match schemaContext with
     | some c => (validateAgainstSchema aql c).1
     | none => [])

/-- All accumulated suggestions, context-free then schema. -/
def aqlSuggestions (aql : String) (schemaContext : Option SchemaContext) :
    List String :=
  baseSuggestions aql ++
    (match schemaContext with
     | some c => (validateAgainstSchema aql c).2
     | none => [])

/-- Enhanced validation of an AQL query: empty input short-circuits;
otherwise the structural, operator, quote, logical, parenthesis and
(when a context is given) schema checks accumulate errors and
suggestions, validity is emptiness of the errors and a fix is attempted
exactly when errors exist. -/
def validateAqlQuery (aql : String) (schemaContext : Option SchemaContext) :
    ValidationResult :=
  if aql.data.isEmpty || (trimChars aql.data).isEmpty then
    { isValid := false, errors := ["Query cannot be empty"],
      suggestions := [], fixedQuery := none }
  else
    { isValid := (aqlErrors aql schemaContext).isEmpty,
      errors := aqlErrors aql schemaContext,
      suggestions := aqlSuggestions aql schemaContext,
      fixedQuery :=
        if (aqlErrors aql schemaContext).isEmpty then none
        else attemptQueryFix aql }

/-- Enhanced formatting of an AQL query: trim, and with auto-fix enabled
apply exactly the fixing pipeline of attemptQueryFix. -/
def formatAqlForRequest (aql : String) (autoFix : Bool) : String :=
  let formattedAql := trimChars aql.data
  if autoFix = false then ⟨formattedAql⟩
  else
    ⟨quoteValues (collapseWs (expandOps (otReplace
      (replaceKw "in".data " IN ".data
        (replaceKw "like".data " LIKE ".data
          (replaceKw "not".data " NOT ".data
            (replaceKw "or".data " OR ".data
              (replaceKw "and".data " AND ".data formattedAql))))))))⟩


/-! ### Helper lemmas on dropWhile and trimming -/

theorem dropWhile_head_not {α} (p : α → Bool) :
    ∀ (l : List α) (c : α) (t : List α), l.dropWhile p = c :: t → p c = false := by
  intro l
  induction l with
  | nil => intro c t h; simp [List.dropWhile] at h
  | cons a as ih =>
    intro c t h
    rw [List.dropWhile_cons] at h
    by_cases hp : p a = true
    · exact ih c t (by simpa [hp] using h)
    · have hpa : p a = false := by simpa using hp
      rw [if_neg (by simp [hpa])] at h
      cases h
      exact hpa

theorem dropWhile_decomp {α} (p : α → Bool) :
    ∀ l : List α, ∃ u, l = u ++ l.dropWhile p ∧ ∀ c ∈ u, p c = true := by
  intro l
  induction l with
  | nil => exact ⟨[], by simp⟩
  | cons a as ih =>
    by_cases hp : p a = true
    · obtain ⟨u, hu, hall⟩ := ih
      refine ⟨a :: u, ?_, ?_⟩
      · rw [List.dropWhile_cons, if_pos (by simp [hp]), List.cons_append, ← hu]
      · intro c hc
        rcases List.mem_cons.mp hc with h | h
        · subst h; exact hp
        · exact hall c h
    · have hpa : p a = false := by simpa using hp
      refine ⟨[], ?_, by simp⟩
      rw [List.dropWhile_cons, if_neg (by simp [hpa])]
      simp

theorem dropWhile_dropWhile {α} (p : α → Bool) (l : List α) :
    (l.dropWhile p).dropWhile p = l.dropWhile p := by
  cases h : l.dropWhile p with
  | nil => simp
  | cons c t =>
    have hc := dropWhile_head_not p l c t h
    rw [List.dropWhile_cons, if_neg (by simp [hc])]

theorem dropWhile_eq_nil_all {α} (p : α → Bool) :
    ∀ l : List α, l.dropWhile p = [] → ∀ c ∈ l, p c = true := by
  intro l
  induction l with
  | nil => simp
  | cons a as ih =>
    intro h c hc
    rw [List.dropWhile_cons] at h
    by_cases hp : p a = true
    · rcases List.mem_cons.mp hc with hcc | hcc
      · subst hcc; exact hp
      · exact ih (by simpa [hp] using h) c hcc
    · rw [if_neg (by simpa using hp)] at h
      cases h

theorem trimChars_idem (l : List Char) : trimChars (trimChars l) = trimChars l := by
  unfold trimChars
  have h1 : (((l.dropWhile isWs).reverse.dropWhile isWs).reverse).dropWhile isWs =
      ((l.dropWhile isWs).reverse.dropWhile isWs).reverse := by
    cases hm : ((l.dropWhile isWs).reverse.dropWhile isWs).reverse with
    | nil => simp
    | cons c t =>
      obtain ⟨u, hu, _⟩ := dropWhile_decomp isWs (l.dropWhile isWs).reverse
      have hd2 : l.dropWhile isWs =
          ((l.dropWhile isWs).reverse.dropWhile isWs).reverse ++ u.reverse := by
        have hrev := congrArg List.reverse hu
        simpa [List.reverse_append] using hrev
      rw [hm] at hd2
      have hhead : isWs c = false := by
        refine dropWhile_head_not isWs l c (t ++ u.reverse) ?_
        rw [hd2]; simp
      rw [List.dropWhile_cons, if_neg (by simp [hhead])]
  rw [h1, List.reverse_reverse, dropWhile_dropWhile]

/-! ### C1: idempotence of the formatter -/

/-- C1, counterexample: with auto-fix on, the formatter is not idempotent.
On the input a=and=b the first pass only spaces out the equals signs
(the keyword and has no surrounding whitespace yet), and the second pass
then sees a spaced keyword and uppercases it. -/
theorem formatAql_not_idempotent_cex :
    formatAqlForRequest (formatAqlForRequest "a=and=b" true) true ≠
      formatAqlForRequest "a=and=b" true := by
  decide

/-- C1, amended: idempotence of the formatter holds in its no-auto-fix
mode, where formatting only trims surrounding whitespace (trimming is a
projection). -/
theorem formatAql_noAutoFix_idempotent (aql : String) :
    formatAqlForRequest (formatAqlForRequest aql false) false =
      formatAqlForRequest aql false := by
  show (⟨trimChars (trimChars aql.data)⟩ : String) = ⟨trimChars aql.data⟩
  rw [trimChars_idem]

/-! ### C2: the formatter applies exactly the auto-fixer pipeline -/

/-- C2: with auto-fix on, the formatter returns exactly what the
auto-fixer returns on the trimmed input when a fix is defined, and the
trimmed input itself when the fix is undefined; with auto-fix off the
formatter only trims. -/
theorem formatAql_eq_attemptQueryFix (aql : String) :
    formatAqlForRequest aql true =
      (attemptQueryFix (jsTrim aql)).getD (jsTrim aql) ∧
    formatAqlForRequest aql false = jsTrim aql := by
  constructor
  · have hfmt : formatAqlForRequest aql true =
        (⟨quoteValues (collapseWs (expandOps (otReplace
          (replaceKw "in".data " IN ".data
            (replaceKw "like".data " LIKE ".data
              (replaceKw "not".data " NOT ".data
                (replaceKw "or".data " OR ".data
                  (replaceKw "and".data " AND ".data (trimChars aql.data)))))))))⟩ : String) := rfl
    have hfix : attemptQueryFix (jsTrim aql) =
        if (⟨quoteValues (collapseWs (expandOps (otReplace
          (replaceKw "in".data " IN ".data
            (replaceKw "like".data " LIKE ".data
              (replaceKw "not".data " NOT ".data
                (replaceKw "or".data " OR ".data
                  (replaceKw "and".data " AND ".data (trimChars aql.data)))))))))⟩ : String) =
            jsTrim aql then none
        else some ⟨quoteValues (collapseWs (expandOps (otReplace
          (replaceKw "in".data " IN ".data
            (replaceKw "like".data " LIKE ".data
              (replaceKw "not".data " NOT ".data
                (replaceKw "or".data " OR ".data
                  (replaceKw "and".data " AND ".data (trimChars aql.data)))))))))⟩ := rfl
    rw [hfmt, hfix]
    by_cases hc : (⟨quoteValues (collapseWs (expandOps (otReplace
          (replaceKw "in".data " IN ".data
            (replaceKw "like".data " LIKE ".data
              (replaceKw "not".data " NOT ".data
                (replaceKw "or".data " OR ".data
                  (replaceKw "and".data " AND ".data (trimChars aql.data)))))))))⟩ : String) =
            jsTrim aql
    · rw [if_pos hc, Option.getD_none]
      exact hc
    · rw [if_neg hc, Option.getD_some]
  · rfl

/-! ### C3: validity is exactly emptiness of the error list -/

/-- C3: the result of validateAqlQuery is valid exactly when its error
list is empty; validity is a function of the errors alone, so entries in
the suggestion list never affect it. -/
theorem validateAql_isValid_iff (aql : String) (ctx : Option SchemaContext) :
    (validateAqlQuery aql ctx).isValid = true ↔
      (validateAqlQuery aql ctx).errors = [] := by
  unfold validateAqlQuery
  by_cases hemp : (aql.data.isEmpty || (trimChars aql.data).isEmpty) = true
  · rw [if_pos hemp]
    simp
  · rw [if_neg hemp]
    exact List.isEmpty_iff

/-! ### C9: empty or whitespace-only input short-circuits -/

/-- C9: an empty or whitespace-only query returns invalid with exactly
the single empty-query error, no suggestions and no fixed query; no other
check contributes to the result. -/
theorem validateAql_empty (aql : String) (ctx : Option SchemaContext)
    (h : trimChars aql.data = []) :
    validateAqlQuery aql ctx =
      { isValid := false, errors := ["Query cannot be empty"],
        suggestions := [], fixedQuery := none } := by
  unfold validateAqlQuery
  rw [if_pos (by simp [h])]

/-- C9, witness at a whitespace-only input. -/
theorem validateAql_empty_witness :
    validateAqlQuery "   " none =
      { isValid := false, errors := ["Query cannot be empty"],
        suggestions := [], fixedQuery := none } :=
  validateAql_empty "   " none (by decide)

/-! ### C8: presence of a fixed query -/

/-- A defined result of attemptQueryFix always differs from its input:
the source returns undefined when the rewritten text equals the input. -/
theorem attemptQueryFix_ne (aql q : String) (h : attemptQueryFix aql = some q) :
    q ≠ aql := by
  have hfix : attemptQueryFix aql =
      if (⟨quoteValues (collapseWs (expandOps (otReplace
        (replaceKw "in".data " IN ".data
          (replaceKw "like".data " LIKE ".data
            (replaceKw "not".data " NOT ".data
              (replaceKw "or".data " OR ".data
                (replaceKw "and".data " AND ".data aql.data))))))))⟩ : String) =
          aql then none
      else some ⟨quoteValues (collapseWs (expandOps (otReplace
        (replaceKw "in".data " IN ".data
          (replaceKw "like".data " LIKE ".data
            (replaceKw "not".data " NOT ".data
              (replaceKw "or".data " OR ".data
                (replaceKw "and".data " AND ".data aql.data))))))))⟩ := rfl
  rw [hfix] at h
  by_cases hc : (⟨quoteValues (collapseWs (expandOps (otReplace
      (replaceKw "in".data " IN ".data
        (replaceKw "like".data " LIKE ".data
          (replaceKw "not".data " NOT ".data
            (replaceKw "or".data " OR ".data
              (replaceKw "and".data " AND ".data aql.data))))))))⟩ : String) = aql
  · rw [if_pos hc] at h
    cases h
  · rw [if_neg hc] at h
    injection h with h2
    rw [← h2]
    exact hc

/-- C8: a defined fixed query implies the error list is non-empty and the
fixed query differs from the input; an empty error list implies the fixed
query is absent. -/
theorem validateAql_fixedQuery_spec (aql : String) (ctx : Option SchemaContext)
    (q : String) :
    ((validateAqlQuery aql ctx).fixedQuery = some q →
      (validateAqlQuery aql ctx).errors ≠ [] ∧ q ≠ aql) ∧
    ((validateAqlQuery aql ctx).errors = [] →
      (validateAqlQuery aql ctx).fixedQuery = none) := by
  unfold validateAqlQuery
  by_cases hemp : (aql.data.isEmpty || (trimChars aql.data).isEmpty) = true
  · rw [if_pos hemp]
    refine ⟨fun h => ?_, fun h => ?_⟩ <;> cases h
  · rw [if_neg hemp]
    dsimp only
    by_cases hE : (aqlErrors aql ctx).isEmpty = true
    · refine ⟨fun h => ?_, fun _ => ?_⟩
      · rw [if_pos hE] at h
        cases h
      · rw [if_pos hE]
    · refine ⟨fun h => ?_, fun h => ?_⟩
      · rw [if_neg hE] at h
        exact ⟨by simpa [List.isEmpty_iff] using hE, attemptQueryFix_ne aql q h⟩
      · exact absurd (by simp [h]) hE

/-- C8, witness: a query with an unquoted spaced value has errors and a
fixed query that differs from the input. -/
theorem validateAql_fixedQuery_spec_witness :
    (validateAqlQuery "ObjectType = Big Server" none).errors ≠ [] ∧
      "ObjectType = \"Big Server\"" ≠ "ObjectType = Big Server" :=
  (validateAql_fixedQuery_spec "ObjectType = Big Server" none
      "ObjectType = \"Big Server\"").1 (by decide)

/-! ### C4 and C5: concrete validation scenarios -/

/-- C4: the lowercase conjunction scenario is invalid, reports the
lowercase-logical-operator error, and the fixed query uppercases the
conjunction and the objectType keyword. -/
theorem validateAql_lowercase_and_scenario :
    (validateAqlQuery
        "objectType = \"Supported laptops\" and \"Screen size\" = \"13-inch\""
        none).isValid = false ∧
    "Logical operators should be uppercase" ∈
      (validateAqlQuery
        "objectType = \"Supported laptops\" and \"Screen size\" = \"13-inch\""
        none).errors ∧
    (validateAqlQuery
        "objectType = \"Supported laptops\" and \"Screen size\" = \"13-inch\""
        none).fixedQuery =
      some "ObjectType = \"Supported laptops\" AND \"Screen size\" = \"13-inch\"" := by
  decide

/-- C5: the unquoted spaced value scenario is invalid, reports the
unquoted-spaced-value error, and the fixed query adds the quotes. -/
theorem validateAql_unquoted_value_scenario :
    (validateAqlQuery "ObjectType = Supported laptops" none).isValid = false ∧
    "Values with spaces must be enclosed in quotes" ∈
      (validateAqlQuery "ObjectType = Supported laptops" none).errors ∧
    (validateAqlQuery "ObjectType = Supported laptops" none).fixedQuery =
      some "ObjectType = \"Supported laptops\"" := by
  decide

/-! ### C7: the similarity search -/

theorem foldl_pushIf {α} (p : α → Prop) [DecidablePred p] :
    ∀ (l acc : List α),
      l.foldl (fun r c => if p c then r ++ [c] else r) acc =
        acc ++ l.filter (fun c => decide (p c)) := by
  intro l
  induction l with
  | nil => intro acc; simp
  | cons c t ih =>
    intro acc
    by_cases h : p c
    · rw [List.foldl_cons, if_pos h, ih, List.filter_cons, if_pos (by simpa using h)]
      simp
    · rw [List.foldl_cons, if_neg h, ih, List.filter_cons, if_neg (by simpa using h)]

/-- C7, counterexample: the similarity search keeps candidate order; it
does not sort by ascending edit distance, as the claimed ordering would
put the exact match first here. -/
theorem findSimilar_not_sorted_cex :
    findSimilarStrings "ab" ["abc", "ab"] 3 = ["abc", "ab"] ∧
    levenshteinDistance "ab" "abc" = 1 ∧
    levenshteinDistance "ab" "ab" = 0 ∧
    findSimilarStrings "ab" ["abc", "ab"] 3 ≠ ["ab", "abc"] := by
  decide

/-- C7, amended: the similarity search returns exactly the candidates
whose case-insensitive Levenshtein distance from the target is at most
the bound, in candidate-list order (a filter, not a sort); the two
concrete examples of the claim hold. -/
theorem findSimilar_filter_spec :
    (∀ (target : String) (candidates : List String) (maxDistance : Nat),
      findSimilarStrings target candidates maxDistance =
        candidates.filter (fun c =>
          decide (levenshteinDistance (lowerStr target) (lowerStr c) ≤ maxDistance))) ∧
    findSimilarStrings "Laptop" ["Laptops", "Servers"] 3 = ["Laptops"] ∧
    findSimilarStrings "Laptop" ["Zebra"] 3 = [] := by
  refine ⟨fun target candidates maxDistance => ?_, by decide, by decide⟩
  unfold findSimilarStrings
  exact foldl_pushIf _ candidates []

/-! ### Levenshtein distance of a string against itself

The distance between two prefixes of the same string is the difference of
their lengths, so row i of the self-distance matrix is
i, i-1, ..., 1, 0, 1, ..., n-i.  The lemmas below follow the inner loop
through the descending part, the zero on the diagonal and the ascending
part, then fold over the rows. -/

/-- The descending run d-1, d-2, ..., d-k (truncated subtraction). -/
def descFrom : Nat → Nat → List Nat
  | _, 0 => []
  | d, k + 1 => (d - 1) :: descFrom (d - 1) k

/-- The ascending run d+1, d+2, ..., d+k. -/
def ascFrom : Nat → Nat → List Nat
  | _, 0 => []
  | d, k + 1 => (d + 1) :: ascFrom (d + 1) k

/-- Row i of the self-distance matrix for a string of length n. -/
def selfRow (i n : Nat) : List Nat := i :: (descFrom i i ++ ascFrom 0 (n - i))

theorem descFrom_snoc : ∀ (k d : Nat), descFrom d (k + 1) = descFrom d k ++ [d - (k + 1)] := by
  intro k
  induction k with
  | zero => intro d; simp [descFrom]
  | succ k ih =>
    intro d
    rw [show descFrom d (k + 1 + 1) = (d - 1) :: descFrom (d - 1) (k + 1) from rfl,
      ih (d - 1),
      show d - 1 - (k + 1) = d - (k + 1 + 1) from by omega,
      show descFrom d (k + 1) = (d - 1) :: descFrom (d - 1) k from rfl]
    simp

theorem ascFrom_snoc : ∀ (k d : Nat), ascFrom d (k + 1) = ascFrom d k ++ [d + (k + 1)] := by
  intro k
  induction k with
  | zero => intro d; simp [ascFrom]
  | succ k ih =>
    intro d
    rw [show ascFrom d (k + 1 + 1) = (d + 1) :: ascFrom (d + 1) (k + 1) from rfl,
      ih (d + 1),
      show d + 1 + (k + 1) = d + (k + 1 + 1) from by omega,
      show ascFrom d (k + 1) = (d + 1) :: ascFrom (d + 1) k from rfl]
    simp

theorem range_eq_ascFrom : ∀ n : Nat, List.range (n + 1) = 0 :: ascFrom 0 n := by
  intro n
  induction n with
  | zero => rfl
  | succ n ih =>
    rw [List.range_succ, ih, ascFrom_snoc]
    simp

/-- Descending phase of the inner loop: while the previous-row entries
descend by one, the written entry equals the diagonal entry whether or not
the characters agree. -/
theorem levGo_desc (bc : Char) :
    ∀ (pre rest : List Char) (pvs2 : List Nat) (d : Nat),
      pre.length ≤ d →
      levGo bc (pre ++ rest) (descFrom d pre.length ++ pvs2) d (d + 1) =
        descFrom (d + 1) pre.length ++
          levGo bc rest pvs2 (d - pre.length) (d - pre.length + 1) := by
  intro pre
  induction pre with
  | nil => intro rest pvs2 d _; simp [descFrom]
  | cons ac pre ih =>
    intro rest pvs2 d hle
    simp only [List.length_cons] at hle ⊢
    have hd1 : 1 ≤ d := by omega
    rw [show descFrom d (pre.length + 1) = (d - 1) :: descFrom (d - 1) pre.length from rfl,
      List.cons_append, List.cons_append]
    rw [show levGo bc (ac :: (pre ++ rest))
        ((d - 1) :: (descFrom (d - 1) pre.length ++ pvs2)) d (d + 1) =
        (if bc = ac then d else Nat.min (Nat.min d (d + 1)) (d - 1) + 1) ::
          levGo bc (pre ++ rest) (descFrom (d - 1) pre.length ++ pvs2) (d - 1)
            (if bc = ac then d else Nat.min (Nat.min d (d + 1)) (d - 1) + 1) from rfl]
    have hv : (if bc = ac then d else Nat.min (Nat.min d (d + 1)) (d - 1) + 1) = d := by
      split
      · rfl
      · simp only [Nat.min_def]
        split <;> split <;> omega
    rw [hv]
    have ih' := ih rest pvs2 (d - 1) (by omega)
    rw [show d - 1 + 1 = d from by omega] at ih'
    rw [ih']
    rw [show descFrom (d + 1) (pre.length + 1) =
        (d + 1 - 1) :: descFrom (d + 1 - 1) pre.length from rfl]
    rw [show d + 1 - 1 = d from by omega, List.cons_append]
    rw [show d - 1 - pre.length = d - (pre.length + 1) from by omega]

/-- Ascending phase of the inner loop: while the previous-row entries
ascend by one, the written entry again equals the diagonal entry. -/
theorem levGo_asc (bc : Char) :
    ∀ (as : List Char) (d : Nat), 1 ≤ d →
      levGo bc as (ascFrom d as.length) d (d - 1) = ascFrom (d - 1) as.length := by
  intro as
  induction as with
  | nil => intro d _; simp [ascFrom, levGo]
  | cons ac as ih =>
    intro d hd
    simp only [List.length_cons]
    rw [show ascFrom d (as.length + 1) = (d + 1) :: ascFrom (d + 1) as.length from rfl]
    rw [show levGo bc (ac :: as) ((d + 1) :: ascFrom (d + 1) as.length) d (d - 1) =
        (if bc = ac then d else Nat.min (Nat.min d (d - 1)) (d + 1) + 1) ::
          levGo bc as (ascFrom (d + 1) as.length) (d + 1)
            (if bc = ac then d else Nat.min (Nat.min d (d - 1)) (d + 1) + 1) from rfl]
    have hv : (if bc = ac then d else Nat.min (Nat.min d (d - 1)) (d + 1) + 1) = d := by
      split
      · rfl
      · simp only [Nat.min_def]
        split <;> split <;> omega
    rw [hv]
    have ih' := ih (d + 1) (by omega)
    rw [show d + 1 - 1 = d from by omega] at ih'
    rw [ih']
    rw [show ascFrom (d - 1) (as.length + 1) =
        (d - 1 + 1) :: ascFrom (d - 1 + 1) as.length from rfl]
    rw [show d - 1 + 1 = d from by omega]

/-- One row step of the self-distance matrix: from row i, processing the
character at position i of the string produces row i+1. -/
theorem levRow_step (bc : Char) (pre post : List Char) :
    (pre.length + 1) ::
        levGo bc (pre ++ bc :: post)
          ((selfRow pre.length (pre ++ bc :: post).length).tail)
          ((selfRow pre.length (pre ++ bc :: post).length).headD 0)
          (pre.length + 1) =
      selfRow (pre.length + 1) (pre ++ bc :: post).length := by
  have hn : (pre ++ bc :: post).length = pre.length + (post.length + 1) := by
    simp
  rw [show (selfRow pre.length (pre ++ bc :: post).length).tail =
      descFrom pre.length pre.length ++
        ascFrom 0 ((pre ++ bc :: post).length - pre.length) from rfl]
  rw [show (selfRow pre.length (pre ++ bc :: post).length).headD 0 = pre.length from rfl]
  rw [show (pre ++ bc :: post).length - pre.length = post.length + 1 from by omega]
  rw [levGo_desc bc pre (bc :: post) (ascFrom 0 (post.length + 1)) pre.length le_rfl]
  rw [show pre.length - pre.length = 0 from by omega]
  rw [show ascFrom 0 (post.length + 1) = 1 :: ascFrom 1 post.length from rfl]
  rw [show levGo bc (bc :: post) (1 :: ascFrom 1 post.length) 0 1 =
      0 :: levGo bc post (ascFrom 1 post.length) 1 0 from by
    rw [show levGo bc (bc :: post) (1 :: ascFrom 1 post.length) 0 1 =
        (if bc = bc then 0 else Nat.min (Nat.min 0 1) 1 + 1) ::
          levGo bc post (ascFrom 1 post.length) 1
            (if bc = bc then 0 else Nat.min (Nat.min 0 1) 1 + 1) from rfl,
      if_pos rfl]]
  have hasc := levGo_asc bc post 1 le_rfl
  rw [show (1 : Nat) - 1 = 0 from rfl] at hasc
  rw [hasc]
  rw [show selfRow (pre.length + 1) (pre ++ bc :: post).length =
      (pre.length + 1) :: (descFrom (pre.length + 1) (pre.length + 1) ++
        ascFrom 0 ((pre ++ bc :: post).length - (pre.length + 1))) from rfl]
  rw [show (pre ++ bc :: post).length - (pre.length + 1) = post.length from by omega]
  rw [descFrom_snoc pre.length (pre.length + 1)]
  rw [show pre.length + 1 - (pre.length + 1) = 0 from by omega]
  simp

/-- Folding the rows over the remaining characters keeps the self-row
invariant and ends at the last row. -/
theorem levRowsGo_self :
    ∀ (post pre : List Char),
      levRowsGo (pre ++ post) post
          (selfRow pre.length (pre ++ post).length) (pre.length + 1) =
        selfRow (pre ++ post).length (pre ++ post).length := by
  intro post
  induction post with
  | nil => intro pre; simp [levRowsGo]
  | cons bc post ih =>
    intro pre
    rw [levRowsGo]
    rw [levRow_step bc pre post]
    have := ih (pre ++ [bc])
    rw [show (pre ++ [bc]) ++ post = pre ++ bc :: post from by simp] at this
    rw [show (pre ++ [bc]).length = pre.length + 1 from by simp] at this
    exact this

theorem getLastD_selfRow_last : ∀ n : Nat, (selfRow n n).getLastD 0 = 0 := by
  intro n
  cases n with
  | zero => rfl
  | succ m =>
    rw [show selfRow (m + 1) (m + 1) =
        (m + 1) :: (descFrom (m + 1) (m + 1) ++ ascFrom 0 (m + 1 - (m + 1))) from rfl]
    rw [show m + 1 - (m + 1) = 0 from by omega]
    rw [descFrom_snoc m (m + 1)]
    rw [show m + 1 - (m + 1) = 0 from by omega]
    rw [show ascFrom 0 0 = [] from rfl, List.append_nil]
    rw [show ((m + 1) :: (descFrom (m + 1) m ++ [0])) =
        ((m + 1) :: descFrom (m + 1) m) ++ [0] from by simp]
    exact List.getLastD_concat 0 0 ((m + 1) :: descFrom (m + 1) m)

/-- The Levenshtein distance of any string to itself is zero. -/
theorem levenshteinDistance_self (t : String) : levenshteinDistance t t = 0 := by
  unfold levenshteinDistance
  rw [range_eq_ascFrom t.data.length]
  rw [show (0 : Nat) :: ascFrom 0 t.data.length = selfRow 0 t.data.length from by
    rw [show selfRow 0 t.data.length = 0 :: (descFrom 0 0 ++ ascFrom 0 (t.data.length - 0)) from rfl]
    simp [descFrom]]
  have := levRowsGo_self t.data []
  simp only [List.nil_append, List.length_nil] at this
  rw [show (0 : Nat) + 1 = 1 from rfl] at this
  rw [this]
  exact getLastD_selfRow_last t.data.length

/-! ### Schema validation loop lemmas -/

theorem schemaStep_eq (o : List String) (acc : List String × List String) (t : String) :
    schemaStep o acc t =
      (acc.1 ++ (schemaStep o ([], []) t).1, acc.2 ++ (schemaStep o ([], []) t).2) := by
  unfold schemaStep
  by_cases h : t ∈ o
  · rw [if_pos h, if_pos h]
    simp
  · rw [if_neg h, if_neg h]
    simp

theorem foldl_schemaStep_acc (o : List String) :
    ∀ (ts : List String) (acc : List String × List String),
      ts.foldl (schemaStep o) acc =
        (acc.1 ++ (ts.foldl (schemaStep o) ([], [])).1,
         acc.2 ++ (ts.foldl (schemaStep o) ([], [])).2) := by
  intro ts
  induction ts with
  | nil => intro acc; simp
  | cons t ts ih =>
    intro acc
    rw [List.foldl_cons, List.foldl_cons, ih (schemaStep o acc t),
      ih (schemaStep o ([], []) t), schemaStep_eq o acc t]
    simp [List.append_assoc]

theorem schemaStep_not_mem (o : List String) (t : String) (ht : t ∉ o) :
    schemaStep o ([], []) t =
      ([unknownObjectTypeError t],
       if (findSimilarStrings t o 3).isEmpty then []
       else [didYouMeanSuggestion (findSimilarStrings t o 3)]) := by
  unfold schemaStep
  rw [if_neg ht]
  simp

theorem mem_schemaErrs_exists (o : List String) :
    ∀ (ts : List String) (e : String),
      e ∈ (ts.foldl (schemaStep o) ([], [])).1 →
      ∃ t, t ∈ ts ∧ t ∉ o ∧ e = unknownObjectTypeError t := by
  intro ts
  induction ts with
  | nil => intro e h; simp at h
  | cons t ts ih =>
    intro e h
    rw [List.foldl_cons, foldl_schemaStep_acc] at h
    dsimp only at h
    rcases List.mem_append.mp h with h1 | h1
    · by_cases ht : t ∈ o
      · rw [show schemaStep o ([], []) t = ([], []) from by
          unfold schemaStep; rw [if_pos ht]] at h1
        simp at h1
      · rw [schemaStep_not_mem o t ht] at h1
        rcases List.mem_singleton.mp h1 with rfl
        exact ⟨t, List.mem_cons_self t ts, ht, rfl⟩
    · obtain ⟨u, hu, hun, hue⟩ := ih e h1
      exact ⟨u, List.mem_cons_of_mem t hu, hun, hue⟩

theorem schemaErrs_mem (o : List String) :
    ∀ (ts : List String) (t : String), t ∈ ts → t ∉ o →
      unknownObjectTypeError t ∈ (ts.foldl (schemaStep o) ([], [])).1 := by
  intro ts
  induction ts with
  | nil => intro t ht; cases ht
  | cons u ts ih =>
    intro t ht hto
    rw [List.foldl_cons, foldl_schemaStep_acc]
    dsimp only
    rcases List.mem_cons.mp ht with rfl | hmem
    · refine List.mem_append_left _ ?_
      rw [schemaStep_not_mem o t hto]
      exact List.mem_singleton.mpr rfl
    · exact List.mem_append_right _ (ih t hmem hto)

theorem schemaSuggs_mem (o : List String) :
    ∀ (ts : List String) (t : String), t ∈ ts → t ∉ o →
      (findSimilarStrings t o 3).isEmpty = false →
      didYouMeanSuggestion (findSimilarStrings t o 3) ∈
        (ts.foldl (schemaStep o) ([], [])).2 := by
  intro ts
  induction ts with
  | nil => intro t ht; cases ht
  | cons u ts ih =>
    intro t ht hto hne
    rw [List.foldl_cons, foldl_schemaStep_acc]
    dsimp only
    rcases List.mem_cons.mp ht with rfl | hmem
    · refine List.mem_append_left _ ?_
      rw [schemaStep_not_mem o t hto]
      dsimp only
      rw [if_neg (by simp [hne])]
      exact List.mem_singleton.mpr rfl
    · exact List.mem_append_right _ (ih t hmem hto hne)

theorem schemaFold_all_known (o : List String) :
    ∀ ts : List String, (∀ t ∈ ts, t ∈ o) →
      ts.foldl (schemaStep o) ([], []) = ([], []) := by
  intro ts
  induction ts with
  | nil => intro _; rfl
  | cons t ts ih =>
    intro hall
    rw [List.foldl_cons,
      show schemaStep o ([], []) t = ([], []) from by
        unfold schemaStep; rw [if_pos (hall t (List.mem_cons_self t ts))]]
    exact ih fun u hu => hall u (List.mem_cons_of_mem t hu)

/-! ### C6: schema awareness is monotone -/

/-- C6: a schema context only ever appends unknown-object-type errors to
the context-free error list, and when every extracted object type belongs
to the schema the result has the same errors and the same validity as the
context-free validation. -/
theorem validateAql_schema_monotone (aql : String) (ctx : SchemaContext) :
    (∃ extra, (validateAqlQuery aql (some ctx)).errors =
        (validateAqlQuery aql none).errors ++ extra ∧
      ∀ e ∈ extra, ∃ t, e = unknownObjectTypeError t) ∧
    ((∀ t ∈ extractObjectTypeValues aql, t ∈ ctx.objectTypes) →
      (validateAqlQuery aql (some ctx)).errors =
        (validateAqlQuery aql none).errors ∧
      (validateAqlQuery aql (some ctx)).isValid =
        (validateAqlQuery aql none).isValid) := by
  unfold validateAqlQuery
  by_cases hemp : (aql.data.isEmpty || (trimChars aql.data).isEmpty) = true
  · rw [if_pos hemp, if_pos hemp]
    refine ⟨⟨[], ?_, ?_⟩, fun _ => ⟨rfl, rfl⟩⟩
    · simp
    · simp
  · rw [if_neg hemp, if_neg hemp]
    dsimp only
    constructor
    · refine ⟨(validateAgainstSchema aql ctx).1, ?_, ?_⟩
      · show baseErrors aql ++ (validateAgainstSchema aql ctx).1 =
            (baseErrors aql ++ []) ++ (validateAgainstSchema aql ctx).1
        rw [List.append_nil]
      · intro e he
        obtain ⟨t, _, _, het⟩ :=
          mem_schemaErrs_exists ctx.objectTypes (extractObjectTypeValues aql) e he
        exact ⟨t, het⟩
    · intro hall
      have hz : validateAgainstSchema aql ctx = ([], []) :=
        schemaFold_all_known ctx.objectTypes (extractObjectTypeValues aql) hall
      have herr : aqlErrors aql (some ctx) = aqlErrors aql none := by
        show baseErrors aql ++ (validateAgainstSchema aql ctx).1 = aqlErrors aql none
        rw [hz]
        show baseErrors aql ++ [] = aqlErrors aql none
        rw [List.append_nil]
        show baseErrors aql = baseErrors aql ++ []
        rw [List.append_nil]
      refine ⟨herr, ?_⟩
      show (aqlErrors aql (some ctx)).isEmpty = (aqlErrors aql none).isEmpty
      rw [herr]

/-- C6, witness: with every extracted object type present in the schema,
the context changes neither errors nor validity. -/
theorem validateAql_schema_monotone_witness :
    (validateAqlQuery "objectType = \"App\"" (some ⟨["App"], [], []⟩)).errors =
      (validateAqlQuery "objectType = \"App\"" none).errors ∧
    (validateAqlQuery "objectType = \"App\"" (some ⟨["App"], [], []⟩)).isValid =
      (validateAqlQuery "objectType = \"App\"" none).isValid :=
  (validateAql_schema_monotone "objectType = \"App\"" ⟨["App"], [], []⟩).2 (by decide)

/-! ### C10: case-sensitive membership, case-insensitive similarity -/

theorem otValueAt_guard (s : List Char)
    (hng : ¬ ((s.take 10).length = 10 ∧ (s.take 10).map lowerChar = "objecttype".data)) :
    otValueAt s = none := by
  simp only [otValueAt]
  rw [if_neg hng]

theorem otValueAt_head (s : List Char) (v rest : List Char)
    (h : otValueAt s = some (v, rest)) :
    ∃ c t, s = c :: t ∧ lowerChar c = 'o' := by
  cases s with
  | nil =>
    rw [show otValueAt ([] : List Char) = none from rfl] at h
    cases h
  | cons c t =>
    refine ⟨c, t, rfl, ?_⟩
    by_cases hcond : (((c :: t).take 10).length = 10 ∧
        ((c :: t).take 10).map lowerChar = "objecttype".data)
    · have h2 := hcond.2
      rw [show (c :: t).take 10 = c :: t.take 9 from rfl, List.map_cons,
        show ("objecttype".data : List Char) = 'o' :: "bjecttype".data from rfl] at h2
      injection h2 with h3 _
    · rw [otValueAt_guard (c :: t) hcond] at h
      cases h

theorem extractGo_nonWs :
    ∀ (fuel : Nat) (s : List Char), extractOtValuesGo fuel s ≠ [] →
      ∃ c, c ∈ s ∧ isWs c = false := by
  intro fuel
  induction fuel with
  | zero => intro s h; exact absurd rfl h
  | succ n ih =>
    intro s h
    cases hv : otValueAt s with
    | some p =>
      obtain ⟨c, t, hs, hlo⟩ := otValueAt_head s p.1 p.2 (by rw [hv])
      refine ⟨c, by rw [hs]; exact List.mem_cons_self c t, ?_⟩
      by_contra hws
      have hws2 : isWs c = true := by simpa using hws
      simp only [isWs, Bool.or_eq_true, decide_eq_true_eq] at hws2
      rcases hws2 with ((((h1 | h1) | h1) | h1) | h1) | h1 <;>
        (rw [h1] at hlo; exact absurd hlo (by decide))
    | none =>
      cases s with
      | nil => exact absurd (show extractOtValuesGo (n + 1) ([] : List Char) = [] from rfl) h
      | cons c t =>
        have hstep : extractOtValuesGo (n + 1) (c :: t) = extractOtValuesGo n t := by
          rw [show extractOtValuesGo (n + 1) (c :: t) =
              (match otValueAt (c :: t) with
               | some (v, rest) => (⟨v⟩ : String) :: extractOtValuesGo n rest
               | none => extractOtValuesGo n t) from rfl, hv]
        rw [hstep] at h
        obtain ⟨c2, hc2, hws⟩ := ih t h
        exact ⟨c2, List.mem_cons_of_mem c hc2, hws⟩

theorem trimChars_nil_all_ws (l : List Char) (h : trimChars l = []) :
    ∀ c ∈ l, isWs c = true := by
  unfold trimChars at h
  have h2 : (l.dropWhile isWs).reverse.dropWhile isWs = [] := by
    have h3 := congrArg List.reverse h
    simpa using h3
  have h4 : ∀ c ∈ l.dropWhile isWs, isWs c = true := by
    intro c hc
    exact dropWhile_eq_nil_all isWs _ h2 c (by simpa using hc)
  obtain ⟨u, hu, hall⟩ := dropWhile_decomp isWs l
  intro c hc
  rw [hu] at hc
  rcases List.mem_append.mp hc with h5 | h5
  · exact hall c h5
  · exact h4 c h5

/-- C10: schema membership is tested by exact string equality while the
similarity suggestion lower-cases both sides, so an object type that
differs from a schema entry only in letter case is reported as unknown
and, at the same time, suggested back via a did-you-mean entry listing
that schema entry (the lower-cased Levenshtein distance is zero). -/
theorem validateAql_schema_case_mismatch (query X M : String) (ctx : SchemaContext)
    (hX : X ∈ extractObjectTypeValues query)
    (hnot : X ∉ ctx.objectTypes)
    (hM : M ∈ ctx.objectTypes)
    (hlow : lowerStr X = lowerStr M) :
    unknownObjectTypeError X ∈ (validateAqlQuery query (some ctx)).errors ∧
    M ∈ findSimilarStrings X ctx.objectTypes 3 ∧
    didYouMeanSuggestion (findSimilarStrings X ctx.objectTypes 3) ∈
      (validateAqlQuery query (some ctx)).suggestions := by
  have hMsim : M ∈ findSimilarStrings X ctx.objectTypes 3 := by
    unfold findSimilarStrings
    rw [foldl_pushIf, List.nil_append, List.mem_filter]
    refine ⟨hM, ?_⟩
    rw [hlow, levenshteinDistance_self]
    decide
  have hne : (findSimilarStrings X ctx.objectTypes 3).isEmpty = false := by
    cases hfs : findSimilarStrings X ctx.objectTypes 3 with
    | nil => rw [hfs] at hMsim; cases hMsim
    | cons a l => rfl
  have hextr : extractOtValuesGo query.data.length query.data ≠ [] := by
    intro hnil
    rw [show extractObjectTypeValues query =
        extractOtValuesGo query.data.length query.data from rfl, hnil] at hX
    cases hX
  obtain ⟨c, hcmem, hcws⟩ := extractGo_nonWs query.data.length query.data hextr
  have hemp : ¬ (query.data.isEmpty || (trimChars query.data).isEmpty) = true := by
    intro hcon
    rcases Bool.or_eq_true_iff.mp hcon with h1 | h1
    · rw [List.isEmpty_iff.mp h1] at hcmem
      cases hcmem
    · have h6 := trimChars_nil_all_ws query.data (List.isEmpty_iff.mp h1) c hcmem
      rw [h6] at hcws
      cases hcws
  unfold validateAqlQuery
  rw [if_neg hemp]
  dsimp only
  refine ⟨?_, hMsim, ?_⟩
  · show unknownObjectTypeError X ∈
        baseErrors query ++ (validateAgainstSchema query ctx).1
    exact List.mem_append_right _
      (schemaErrs_mem ctx.objectTypes (extractObjectTypeValues query) X hX hnot)
  · show didYouMeanSuggestion (findSimilarStrings X ctx.objectTypes 3) ∈
        baseSuggestions query ++ (validateAgainstSchema query ctx).2
    exact List.mem_append_right _
      (schemaSuggs_mem ctx.objectTypes (extractObjectTypeValues query) X hX hnot hne)

/-- C10, witness: objectType laptop against a schema knowing Laptop. -/
theorem validateAql_schema_case_mismatch_witness :
    unknownObjectTypeError "laptop" ∈
      (validateAqlQuery "objectType = \"laptop\"" (some ⟨["Laptop"], [], []⟩)).errors ∧
    "Laptop" ∈ findSimilarStrings "laptop" ["Laptop"] 3 ∧
    didYouMeanSuggestion (findSimilarStrings "laptop" ["Laptop"] 3) ∈
      (validateAqlQuery "objectType = \"laptop\"" (some ⟨["Laptop"], [], []⟩)).suggestions :=
  validateAql_schema_case_mismatch "objectType = \"laptop\"" "laptop" "Laptop"
    ⟨["Laptop"], [], []⟩ (by decide) (by decide) (by decide) (by decide)
